import Mathlib
set_option maxRecDepth 100000

/-!
Verification development for the Arovi public-health briefing pipeline
(`arovi_agent/agents.py`, `arovi_agent/tools.py`, `arovi_agent/runner.py`,
`arovi_agent/models.py`).

The Python source is shallowly embedded: strings are `String`/`List Char`,
Python dicts produced by `json.loads` are association lists over an inductive
JSON value type, and every fallible operation returns `Option`.  Recursions
that are not structural in the source (scanning for code fences, recursive
descent JSON parsing) are driven by an explicit fuel argument that is always
instantiated with the length of the input, so every definition is executable
and kernel-reducible.
-/

/-! ## Characters and small Python string helpers -/

/-- The character `{` (written via its code point). -/

def lbrace : Char := Char.ofNat 123

/-- The character `}` (written via its code point). -/

def rbrace : Char := Char.ofNat 125

/-- The backtick character. -/

def btick : Char := Char.ofNat 96

/-- The double-quote character. -/

def dquote : Char := Char.ofNat 34

/-- The backslash character. -/

def bslash : Char := Char.ofNat 92

/-- Whitespace characters stripped by Python's `str.strip()` (ASCII part). -/

def isSpaceChar (c : Char) : Bool :=
  c = ' ' || c = Char.ofNat 9 || c = Char.ofNat 10 || c = Char.ofNat 13 ||
    c = Char.ofNat 11 || c = Char.ofNat 12

/-- Python `str.strip()` on a character list. -/

def stripL (l : List Char) : List Char :=
  ((l.dropWhile isSpaceChar).reverse.dropWhile isSpaceChar).reverse

/-- Python `str.strip()`. -/

def pyStrip (s : String) : String := ⟨stripL s.data⟩

/-- Python `str.lower()` (ASCII letters, which is all the pipeline compares). -/

def pyLower (s : String) : String := ⟨s.data.map Char.toLower⟩

/-! ## `_extract_json_block` (agents.py lines 31-53)

Python:
```
def _extract_json_block(text: str) -> str:
    if not text:
        return "\x7b\x7d"
    if "```" in text:
        parts = text.split("```")
        text = "".join(parts[1:-1]) if len(parts) >= 3 else parts[-1]
    start = text.find("\x7b")
    end = text.rfind("\x7d")
    if start == -1 or end == -1 or end <= start:
        return "\x7b\x7d"
    return text[start : end + 1]
```
-/

/-- Python `"```" in text`. -/

def hasFence : List Char → Bool
  | [] => false
  | c :: rest => (c = btick && rest.take 2 = [btick, btick]) || hasFence rest

/-- Python `text.split("```")`, fueled (fuel ≥ length of the input suffices;
each step consumes at least one character). -/

def splitFenceGo : Nat → List Char → List (List Char)
  | _, [] => [[]]
  | 0, s => [s]
  | fuel + 1, c :: rest =>
    if c = btick ∧ rest.take 2 = [btick, btick] then
      [] :: splitFenceGo fuel (rest.drop 2)
    else
      match splitFenceGo fuel rest with
      | [] => [[c]]
      | p :: ps => (c :: p) :: ps

/-- Python `text.split("```")`. -/

def splitFence (s : List Char) : List (List Char) := splitFenceGo s.length s

/-- Python `text.find(c)`: index of the first occurrence, `none` for -1. -/

def findIdxC (c : Char) : List Char → Option Nat
  | [] => none
  | x :: xs => if x = c then some 0 else (findIdxC c xs).map (· + 1)

/-- Python `text.rfind(c)`: index of the last occurrence, `none` for -1. -/

def rfindC (c : Char) : List Char → Option Nat
  | [] => none
  | x :: xs =>
    match rfindC c xs with
    | some i => some (i + 1)
    | none => if x = c then some 0 else none

/-- The fence-stripping step of `_extract_json_block`: the candidate text in
which braces are then located. -/

def extractCandidate (text : List Char) : List Char :=
  if hasFence text then
    let parts := splitFence text
    if 3 ≤ parts.length then ((parts.drop 1).dropLast).flatten
    else parts.getLastD []
  else text

/-- The extractor `_extract_json_block` on character lists: `start` is the first `\x7b`,
`end` the last `\x7d` of the candidate; `-1` results and `end <= start`
yield the literal `"\x7b\x7d"`, otherwise the inclusive slice. -/

def extractL (text : List Char) : List Char :=
  if text = [] then [lbrace, rbrace]
  else
    match findIdxC lbrace (extractCandidate text),
        rfindC rbrace (extractCandidate text) with
    | some s, some e =>
      if e ≤ s then [lbrace, rbrace]
      else ((extractCandidate text).drop s).take (e + 1 - s)
    | some _, none => [lbrace, rbrace]
    | none, _ => [lbrace, rbrace]

/-- The function `_extract_json_block` from agents.py. -/

def _extract_json_block (text : String) : String := ⟨extractL text.data⟩

/-! ## JSON values and a recursive-descent parser (model of `json.loads`)

The parser implements the standard JSON grammar that both `json.loads` and
pydantic's `model_validate_json` accept: objects, arrays, strings with escape
sequences, numbers, `true`/`false`/`null`, with the four JSON whitespace
characters.  Numbers are kept as their literal text (only their type and
truthiness matter to the pipeline).  Container parsing is fueled; the fuel is
always instantiated with more than the input length, which every recursion
consumes. -/

/-- A parsed JSON value.  Objects keep their fields in textual order;
duplicate keys are resolved last-wins at lookup time, as Python dicts do. -/

inductive JVal where
  | jnull : JVal
  | jbool (b : Bool) : JVal
  | jnum (lit : String) : JVal
  | jstr (s : String) : JVal
  | jarr (elems : List JVal) : JVal
  | jobj (fields : List (String × JVal)) : JVal

/-- JSON whitespace. -/

def jsonWs (c : Char) : Bool :=
  c = ' ' || c = Char.ofNat 9 || c = Char.ofNat 10 || c = Char.ofNat 13

/-- Skip JSON whitespace. -/

def skipWs (s : List Char) : List Char := s.dropWhile jsonWs

/-- Hexadecimal digit test. -/

def isHexDigitC (c : Char) : Bool :=
  c.isDigit || ('a' ≤ c && c ≤ 'f') || ('A' ≤ c && c ≤ 'F')

/-- Value of a hexadecimal digit. -/

def hexValC (c : Char) : Nat :=
  if c.isDigit then c.toNat - 48
  else if 'a' ≤ c then c.toNat - 87
  else c.toNat - 55

/-- Parse the body of a JSON string (the opening quote already consumed),
returning the decoded characters and the rest of the input.  Rejects raw
control characters and invalid escapes, as strict `json.loads` does. -/

def parseStringBody : Nat → List Char → Option (List Char × List Char)
  | 0, _ => none
  | _, [] => none
  | fuel + 1, c :: rest =>
    if c = dquote then some ([], rest)
    else if c = bslash then
      match rest with
      | [] => none
      | e :: rest2 =>
        if e = dquote || e = bslash || e = '/' then
          (parseStringBody fuel rest2).map (fun pr => (e :: pr.1, pr.2))
        else if e = 'b' then
          (parseStringBody fuel rest2).map (fun pr => (Char.ofNat 8 :: pr.1, pr.2))
        else if e = 'f' then
          (parseStringBody fuel rest2).map (fun pr => (Char.ofNat 12 :: pr.1, pr.2))
        else if e = 'n' then
          (parseStringBody fuel rest2).map (fun pr => (Char.ofNat 10 :: pr.1, pr.2))
        else if e = 'r' then
          (parseStringBody fuel rest2).map (fun pr => (Char.ofNat 13 :: pr.1, pr.2))
        else if e = 't' then
          (parseStringBody fuel rest2).map (fun pr => (Char.ofNat 9 :: pr.1, pr.2))
        else if e = 'u' then
          match rest2 with
          | h1 :: h2 :: h3 :: h4 :: rest3 =>
            if isHexDigitC h1 && isHexDigitC h2 && isHexDigitC h3 && isHexDigitC h4 then
              let n := ((hexValC h1 * 16 + hexValC h2) * 16 + hexValC h3) * 16 + hexValC h4
              (parseStringBody fuel rest3).map (fun pr => (Char.ofNat n :: pr.1, pr.2))
            else none
          | _ => none
        else none
    else if c.toNat < 32 then none
    else (parseStringBody fuel rest).map (fun pr => (c :: pr.1, pr.2))

/-- Parse one or more decimal digits. -/

def parseDigits1 (s : List Char) : Option (List Char × List Char) :=
  match s.takeWhile Char.isDigit with
  | [] => none
  | ds => some (ds, s.dropWhile Char.isDigit)

/-- Parse a JSON number literal, returning its text and the rest. -/

def parseNumber (s : List Char) : Option (List Char × List Char) :=
  let (sign, s1) :=
    match s with
    | c :: r => if c = '-' then (['-'], r) else (([] : List Char), s)
    | [] => ([], s)
  match s1 with
  | [] => none
  | c :: r =>
    if c = '0' then
      let (ipart, s2) := (['0'], r)
      let (fpart, s3) :=
        match s2 with
        | '.' :: r2 =>
          match parseDigits1 r2 with
          | some (ds, r3) => (some ('.' :: ds), r3)
          | none => (none, s2)
        | _ => (none, s2)
      match fpart with
      | none =>
        match s2 with
        | '.' :: _ => none
        | _ => parseExpPart (sign ++ ipart) s2
      | some fp => parseExpPart (sign ++ ipart ++ fp) s3
    else if c.isDigit then
      match parseDigits1 s1 with
      | some (ipart, s2) =>
        let (fpart, s3) :=
          match s2 with
          | '.' :: r2 =>
            match parseDigits1 r2 with
            | some (ds, r3) => (some ('.' :: ds), r3)
            | none => (none, s2)
          | _ => (none, s2)
        match fpart with
        | none =>
          match s2 with
          | '.' :: _ => none
          | _ => parseExpPart (sign ++ ipart) s2
        | some fp => parseExpPart (sign ++ ipart ++ fp) s3
      | none => none
    else none
where
  /-- Parse an optional exponent part and finish the literal. -/
  parseExpPart (lit : List Char) (s : List Char) : Option (List Char × List Char) :=
    match s with
    | c :: r =>
      if c = 'e' || c = 'E' then
        match r with
        | c2 :: r2 =>
          if c2 = '+' || c2 = '-' then
            match parseDigits1 r2 with
            | some (ds, r3) => some (lit ++ [c, c2] ++ ds, r3)
            | none => none
          else
            match parseDigits1 r with
            | some (ds, r3) => some (lit ++ [c] ++ ds, r3)
            | none => none
        | [] => none
      else some (lit, s)
    | [] => some (lit, s)

/-- Parse the members of a JSON object, positioned at the first member
(the `\x7b` consumed, input known not to start with `\x7d`).  The value
parser is passed in as `pv`. -/

def parseMembersAux (pv : List Char → Option (JVal × List Char)) :
    Nat → List Char → Option (List (String × JVal) × List Char)
  | 0, _ => none
  | mfuel + 1, s =>
    match skipWs s with
    | [] => none
    | c :: rest =>
      if c = dquote then
        match parseStringBody (rest.length + 1) rest with
        | some (key, r1) =>
          match skipWs r1 with
          | c2 :: r2 =>
            if c2 = ':' then
              match pv r2 with
              | some (v, r3) =>
                match skipWs r3 with
                | c3 :: r4 =>
                  if c3 = ',' then
                    (parseMembersAux pv mfuel r4).map
                      (fun pr => ((⟨key⟩, v) :: pr.1, pr.2))
                  else if c3 = rbrace then some ([(⟨key⟩, v)], r4)
                  else none
                | [] => none
              | none => none
            else none
          | [] => none
        | none => none
      else none

/-- Parse the elements of a JSON array, positioned at the first element.
The value parser is passed in as `pv`. -/

def parseElemsAux (pv : List Char → Option (JVal × List Char)) :
    Nat → List Char → Option (List JVal × List Char)
  | 0, _ => none
  | efuel + 1, s =>
    match pv s with
    | some (v, r1) =>
      match skipWs r1 with
      | c :: r2 =>
        if c = ',' then
          (parseElemsAux pv efuel r2).map (fun pr => (v :: pr.1, pr.2))
        else if c = ']' then some ([v], r2)
        else none
      | [] => none
    | none => none

/-- Parse one JSON value (leading whitespace allowed).  The fuel bounds the
nesting depth; every nesting level consumes at least one character, so a fuel
larger than the input length never runs out. -/

def parseV : Nat → List Char → Option (JVal × List Char)
  | 0, _ => none
  | fuel + 1, s0 =>
    let s := skipWs s0
    match s with
    | [] => none
    | c :: rest =>
      if c = dquote then
        (parseStringBody (rest.length + 1) rest).map (fun pr => (JVal.jstr ⟨pr.1⟩, pr.2))
      else if c = lbrace then
        let r1 := skipWs rest
        match r1 with
        | c2 :: r2 =>
          if c2 = rbrace then some (JVal.jobj [], r2)
          else
            (parseMembersAux (parseV fuel) (r1.length + 1) r1).map
              (fun pr => (JVal.jobj pr.1, pr.2))
        | [] => none
      else if c = '[' then
        let r1 := skipWs rest
        match r1 with
        | c2 :: r2 =>
          if c2 = ']' then some (JVal.jarr [], r2)
          else
            (parseElemsAux (parseV fuel) (r1.length + 1) r1).map
              (fun pr => (JVal.jarr pr.1, pr.2))
        | [] => none
      else if c = 't' then
        match rest with
        | 'r' :: 'u' :: 'e' :: r => some (JVal.jbool true, r)
        | _ => none
      else if c = 'f' then
        match rest with
        | 'a' :: 'l' :: 's' :: 'e' :: r => some (JVal.jbool false, r)
        | _ => none
      else if c = 'n' then
        match rest with
        | 'u' :: 'l' :: 'l' :: r => some (JVal.jnull, r)
        | _ => none
      else
        (parseNumber s).map (fun pr => (JVal.jnum ⟨pr.1⟩, pr.2))

/-- Python `json.loads`: parse a complete JSON document, rejecting trailing
data, returning `none` where `json.loads` raises. -/

def json_loads (s : String) : Option JVal :=
  match parseV (s.data.length + 1) s.data with
  | some (v, r) => if skipWs r = [] then some v else none
  | none => none

/-! ## Pydantic models (models.py) and schema validation

`NewsItemList.model_validate_json` / `TrendNotes.model_validate_json` parse
JSON and validate it: the top level must be an object, required fields must be
present JSON strings (pydantic v2 does not coerce numbers or booleans to
`str`), list fields must be arrays, fields with defaults may be absent, and
extra keys are ignored. -/

/-- Python dict lookup for an object built by `json.loads`: with duplicate
keys the last occurrence wins. -/

def jLookup : List (String × JVal) → String → Option JVal
  | [], _ => none
  | (k, v) :: rest, key =>
    match jLookup rest key with
    | some v2 => some v2
    | none => if k = key then some v else none

/-- Model `NewsItem` from models.py: all nine fields are required strings. -/

structure NewsItem where
  region : String
  title : String
  source : String
  url : String
  published_date : String
  summary : String
  topic : String
  sentiment : String
  public_health_relevance : String
deriving DecidableEq

/-- Model `NewsItemList` from models.py: `items` defaults to the empty list. -/

structure NewsItemList where
  items : List NewsItem
deriving DecidableEq

/-- Model `TrendNotes` from models.py: every field has an empty default. -/

structure TrendNotes where
  key_trends : List String
  risks : List String
  positive_developments : List String
  notes_for_briefing_writer : String
deriving DecidableEq

/-- Validate a JSON value as a required `str` field. -/

def asStr : JVal → Option String
  | JVal.jstr s => some s
  | _ => none

/-- Validate a JSON value as a `List[str]` field. -/

def asStrList : JVal → Option (List String)
  | JVal.jarr xs => xs.mapM asStr
  | _ => none

/-- Validate one JSON value against the `NewsItem` schema. -/

def validateNewsItem (v : JVal) : Option NewsItem :=
  match v with
  | JVal.jobj fs => do
    let region ← (jLookup fs "region").bind asStr
    let title ← (jLookup fs "title").bind asStr
    let source ← (jLookup fs "source").bind asStr
    let url ← (jLookup fs "url").bind asStr
    let published_date ← (jLookup fs "published_date").bind asStr
    let summary ← (jLookup fs "summary").bind asStr
    let topic ← (jLookup fs "topic").bind asStr
    let sentiment ← (jLookup fs "sentiment").bind asStr
    let public_health_relevance ← (jLookup fs "public_health_relevance").bind asStr
    pure ⟨region, title, source, url, published_date, summary, topic, sentiment,
      public_health_relevance⟩
  | _ => none

/-- Validate a JSON value against the `NewsItemList` schema (`items` is
optional with default `[]`). -/

def validateNewsItemListJ (v : JVal) : Option NewsItemList :=
  match v with
  | JVal.jobj fs =>
    match jLookup fs "items" with
    | none => some ⟨[]⟩
    | some (JVal.jarr xs) => (xs.mapM validateNewsItem).map NewsItemList.mk
    | some _ => none
  | _ => none

/-- Validate a JSON value against the `TrendNotes` schema (all fields have
empty defaults). -/

def validateTrendNotesJ (v : JVal) : Option TrendNotes :=
  match v with
  | JVal.jobj fs => do
    let key_trends ←
      match jLookup fs "key_trends" with
      | none => some []
      | some w => asStrList w
    let risks ←
      match jLookup fs "risks" with
      | none => some []
      | some w => asStrList w
    let positive_developments ←
      match jLookup fs "positive_developments" with
      | none => some []
      | some w => asStrList w
    let notes_for_briefing_writer ←
      match jLookup fs "notes_for_briefing_writer" with
      | none => some ""
      | some w => asStr w
    pure ⟨key_trends, risks, positive_developments, notes_for_briefing_writer⟩
  | _ => none

/-- Model of `NewsItemList.model_validate_json`. -/

def validate_news_item_list (js : String) : Option NewsItemList :=
  (json_loads js).bind validateNewsItemListJ

/-- Model of `TrendNotes.model_validate_json`. -/

def validate_trend_notes (js : String) : Option TrendNotes :=
  (json_loads js).bind validateTrendNotesJ

/-- The `json.loads` + `isinstance(data, dict)` check of
`RiskReportParserAgent`: succeeds exactly when the text parses to a dict. -/

def validate_risk_report (js : String) : Option (List (String × JVal)) :=
  (json_loads js).bind fun v =>
    match v with
    | JVal.jobj fs => some fs
    | _ => none

/-! ## The three parser stages (agents.py)

Each stage reads its raw state key (`state.get(key) or ""`), extracts a JSON
block, validates it, and on any failure substitutes its empty default.  Each
is a total function: no exception escapes to the pipeline. -/

/-- Stage `TaggedItemsParserAgent._run_async_impl`: the structured value written to
`state["tagged_items"]`. -/

def TaggedItemsParserAgent_run (tagged_items_raw : Option String) : NewsItemList :=
  let raw := tagged_items_raw.getD ""
  let json_str := _extract_json_block raw
  match validate_news_item_list json_str with
  | some m => m
  | none => { items := [] }

/-- The all-empty `TrendNotes` default. -/

def emptyTrendNotes : TrendNotes :=
  { key_trends := [], risks := [], positive_developments := [],
    notes_for_briefing_writer := "" }

/-- Stage `TrendNotesParserAgent._run_async_impl`: the structured value written to
`state["trend_notes"]`. -/

def TrendNotesParserAgent_run (trend_notes_raw : Option String) : TrendNotes :=
  let raw := trend_notes_raw.getD ""
  let json_str := _extract_json_block raw
  match validate_trend_notes json_str with
  | some m => m
  | none => emptyTrendNotes

/-- Stage `RiskReportParserAgent._run_async_impl`: the dict written to
`state["risk_report"]`; non-dict JSON and parse failures both yield the empty
dict. -/

def RiskReportParserAgent_run (risk_report_raw : Option String) : List (String × JVal) :=
  let raw := risk_report_raw.getD ""
  let json_str := _extract_json_block raw
  match validate_risk_report json_str with
  | some d => d
  | none => []

/-! ## `_filter_and_dedupe_items_impl` (tools.py lines 8-46)

Items reaching the tool are the JSON records merged by the classification
stage; the tool reads `title`, `region` and `public_health_relevance` via
`item.get(...) or ""` and returns retained input records verbatim. -/

/-- One item record as passed to the tool.  Fields carry `none` for an absent
key; `item.get(f) or ""` is `(·.getD "")`. -/

structure ToolItem where
  region : Option String
  title : Option String
  source : Option String
  url : Option String
  published_date : Option String
  summary : Option String
  topic : Option String
  sentiment : Option String
  public_health_relevance : Option String
deriving DecidableEq

/-- Result dict of the tool. -/

structure FilterResult where
  filtered_items : List ToolItem
  filtered_count : Nat
  original_count : Nat
deriving DecidableEq

/-- The stripped title of an item (`(item.get("title") or "").strip()`). -/

def itemTitle (item : ToolItem) : String := pyStrip (item.title.getD "")

/-- The stripped region of an item. -/

def itemRegion (item : ToolItem) : String := pyStrip (item.region.getD "")

/-- The stripped relevance of an item. -/

def itemRelevance (item : ToolItem) : String :=
  pyStrip (item.public_health_relevance.getD "")

/-- The dedupe key `(region.lower(), title.lower())` of stripped values. -/

def itemKey (item : ToolItem) : String × String :=
  (pyLower (itemRegion item), pyLower (itemTitle item))

/-- The loop body of `_filter_and_dedupe_items_impl`: iterate in order,
skipping items with empty stripped title or region, short stripped relevance,
or an already-seen key; `seen` accumulates keys of retained items. -/

def fadGo (min_relevance_len : Nat) :
    List ToolItem → List (String × String) → List ToolItem
  | [], _ => []
  | item :: rest, seen =>
    let title := itemTitle item
    let region := itemRegion item
    let relevance := itemRelevance item
    if title = "" || region = "" then fadGo min_relevance_len rest seen
    else if relevance.length < min_relevance_len then fadGo min_relevance_len rest seen
    else
      let key := (pyLower region, pyLower title)
      if key ∈ seen then fadGo min_relevance_len rest seen
      else item :: fadGo min_relevance_len rest (key :: seen)

/-- The tool `_filter_and_dedupe_items_impl` from tools.py (`min_relevance_len`
defaults to 40). -/

def _filter_and_dedupe_items_impl (items : List ToolItem)
    (min_relevance_len : Nat := 40) : FilterResult :=
  let filtered := fadGo min_relevance_len items []
  { filtered_items := filtered
    filtered_count := filtered.length
    original_count := items.length }

/-- An item record with every field missing except the given three. -/

def mkToolItem (region title relevance : Option String) : ToolItem :=
  ⟨region, title, none, none, none, none, none, none, relevance⟩

/-! ## The revise loop (agents.py lines 544-549)

`risk_loop_agent = LoopAgent(sub_agents=[risk_checker_agent,
risk_report_parser_agent, redraft_agent], max_iterations=2)`.  The `LoopAgent`
composition operator itself belongs to the external agent framework, so its
semantics is modelled from the spec; the sub-agent list, its order and the
iteration cap are taken from the source. -/

/-- The three sub-agents of the revise loop, in source order. -/

inductive RiskStage where
  | risk_checker_agent : RiskStage
  | risk_report_parser_agent : RiskStage
  | redraft_agent : RiskStage
deriving DecidableEq

/-- The configured `sub_agents=[risk_checker_agent, risk_report_parser_agent,
redraft_agent]`. -/

def risk_loop_sub_agents : List RiskStage :=
  [RiskStage.risk_checker_agent, RiskStage.risk_report_parser_agent,
   RiskStage.redraft_agent]

/-- The configured `max_iterations=2`. -/

def risk_loop_max_iterations : Nat := 2

/-- The slice of pipeline state the revise loop reads and writes. -/

structure RiskLoopState where
  briefing_draft : Option String
  briefing_revised : Option String
  risk_report_raw : Option String
  risk_report : List (String × JVal)

/-- Result of one sub-agent: the updated state, and whether the sub-agent
escalated (the only way a framework loop ends before its iteration cap). -/

structure StageResult where
  state : RiskLoopState
  escalate : Bool

/-- One sub-agent step.  The two generative stages invoke the external oracle
(passed in as `oracle_check` / `oracle_redraft`) and write their output key;
the parse stage is the source's `RiskReportParserAgent`.  None of the three
escalates. -/

def riskLoopStep (oracle_check oracle_redraft : RiskLoopState → String)
    (s : RiskLoopState) : RiskStage → StageResult
  | RiskStage.risk_checker_agent =>
    ⟨{ s with risk_report_raw := some (oracle_check s) }, false⟩
  | RiskStage.risk_report_parser_agent =>
    ⟨{ s with risk_report := RiskReportParserAgent_run s.risk_report_raw }, false⟩
  | RiskStage.redraft_agent =>
    ⟨{ s with briefing_revised := some (oracle_redraft s) }, false⟩

/-- Modelled from the spec: one pass of a loop iteration runs the sub-agents
in order, stopping early only if one escalates.  Returns the final state, the
trace of sub-agents that ran, and whether an escalation happened. -/

def loopRunSeq (step : RiskLoopState → RiskStage → StageResult) :
    List RiskStage → RiskLoopState → RiskLoopState × List RiskStage × Bool
  | [], s => (s, [], false)
  | a :: rest, s =>
    let r := step s a
    if r.escalate then (r.state, [a], true)
    else
      match loopRunSeq step rest r.state with
      | (s2, tr, esc) => (s2, a :: tr, esc)

/-- Modelled from the spec: the bounded revise-loop operator (the `LoopAgent`
construct of the external agent framework, absent from this repository's
source).  It repeats its ordered sub-agent sequence up to the fixed iteration
cap, ending early only on escalation. -/

def loopRun (step : RiskLoopState → RiskStage → StageResult) :
    Nat → RiskLoopState → RiskLoopState × List RiskStage
  | 0, s => (s, [])
  | n + 1, s =>
    match loopRunSeq step risk_loop_sub_agents s with
    | (s1, tr, esc) =>
      if esc then (s1, tr)
      else
        match loopRun step n s1 with
        | (s2, tr2) => (s2, tr ++ tr2)

/-- Runner of `risk_loop_agent`: run the loop with the configured sub-agents and cap. -/

def risk_loop_agent_run (oracle_check oracle_redraft : RiskLoopState → String)
    (s0 : RiskLoopState) : RiskLoopState × List RiskStage :=
  loopRun (riskLoopStep oracle_check oracle_redraft) risk_loop_max_iterations s0

/-! ## `MetricsAgent` (agents.py lines 556-611)

State values are dynamic (`JVal`); the stage result is `Option` — `none`
models an uncaught Python exception (e.g. `.lower()` on a non-string
region). -/

/-- The summary dict written to `state["metrics_summary"]`.  `items_by_region`
is an insertion-ordered dict. -/

structure MetricsSummary where
  tagged_items_count : Nat
  items_by_region : List (String × Nat)
  risk_issue_count : Nat
deriving DecidableEq

/-- Python truthiness of a JSON-derived value. -/

def jTruthy : JVal → Bool
  | JVal.jnull => false
  | JVal.jbool b => b
  | JVal.jnum lit =>
    !((lit.data.takeWhile (fun c => c != 'e' && c != 'E')).all
        (fun c => !c.isDigit || c = '0'))
  | JVal.jstr s => !(s = "")
  | JVal.jarr xs => !xs.isEmpty
  | JVal.jobj fs => !fs.isEmpty

/-- Python `for item in items`: lists iterate elements, strings iterate their
characters, dicts iterate their keys; other values raise `TypeError`. -/

def pyIterate : JVal → Option (List JVal)
  | JVal.jarr xs => some xs
  | JVal.jstr s => some (s.data.map (fun c => JVal.jstr ⟨[c]⟩))
  | JVal.jobj fs => some (fs.map (fun kv => JVal.jstr kv.1))
  | _ => none

/-- Python `v.lower()`: defined only on strings (`AttributeError`
otherwise). -/

def pyLowerJ : JVal → Option String
  | JVal.jstr s => some (pyLower s)
  | _ => none

/-- The region bucket the metrics loop computes for one item:
`(item.get("region") or "unknown").lower()` for dict items, `"unknown"` for
non-dict items; `none` models the `AttributeError` on a truthy non-string
region. -/

def metricsRegionOf (item : JVal) : Option String :=
  match item with
  | JVal.jobj fs =>
    let r := (jLookup fs "region").getD JVal.jnull
    pyLowerJ (if jTruthy r then r else JVal.jstr "unknown")
  | _ => some "unknown"

/-- Python `region_counts[region] = region_counts.get(region, 0) + 1` on an
insertion-ordered dict. -/

def dictIncr : List (String × Nat) → String → List (String × Nat)
  | [], k => [(k, 1)]
  | (k', v) :: rest, k =>
    if k' = k then (k', v + 1) :: rest else (k', v) :: dictIncr rest k

/-- The `for item in items` loop accumulating `region_counts`. -/

def regionCountsGo : List JVal → List (String × Nat) → Option (List (String × Nat))
  | [], acc => some acc
  | item :: rest, acc =>
    match metricsRegionOf item with
    | some reg => regionCountsGo rest (dictIncr acc reg)
    | none => none

/-- The item sequence the metrics stage iterates:
`tagged_items_obj = state.get("tagged_items") or \x7b\x7d`;
`items = tagged_items_obj.get("items") if isinstance(tagged_items_obj, dict)
else []`; `items = items or []`; then iteration. -/

def metricsItemsList (tagged_items : Option JVal) : Option (List JVal) :=
  let tagged_items_obj : JVal :=
    match tagged_items with
    | none => JVal.jobj []
    | some v => if jTruthy v then v else JVal.jobj []
  let items0 : JVal :=
    match tagged_items_obj with
    | JVal.jobj fs => (jLookup fs "items").getD JVal.jnull
    | _ => JVal.jarr []
  let items1 : JVal := if jTruthy items0 then items0 else JVal.jarr []
  pyIterate items1

/-- The issue count: `risk_report = state.get("risk_report") or \x7b\x7d`;
`issues = risk_report.get("issues") if isinstance(risk_report, dict) else []`;
`issues = issues or []`; `len(issues) if isinstance(issues, list) else 0`. -/

def metricsIssueCount (risk_report : Option JVal) : Nat :=
  let risk0 : JVal :=
    match risk_report with
    | none => JVal.jobj []
    | some v => if jTruthy v then v else JVal.jobj []
  let issues0 : JVal :=
    match risk0 with
    | JVal.jobj fs => (jLookup fs "issues").getD JVal.jnull
    | _ => JVal.jarr []
  let issues1 : JVal := if jTruthy issues0 then issues0 else JVal.jarr []
  match issues1 with
  | JVal.jarr is => is.length
  | _ => 0

/-- Stage `MetricsAgent._run_async_impl`: the summary written to
`state["metrics_summary"]`, or `none` when the Python code raises. -/

def metrics_agent_run (tagged_items risk_report : Option JVal) :
    Option MetricsSummary :=
  match metricsItemsList tagged_items with
  | none => none
  | some xs =>
    match regionCountsGo xs [] with
    | none => none
    | some rc =>
      some { tagged_items_count := xs.length
             items_by_region := rc
             risk_issue_count := metricsIssueCount risk_report }

/-! ## The final briefing (runner.py lines 97-109) -/

/-- The message printed when neither briefing exists. -/

def NO_BRIEFING_MESSAGE : String :=
  "No final briefing found in state. Check that combiner_agent and redraft_agent are writing to `briefing_draft` / `briefing_revised`."

/-- Python truthiness of `state.get(key)` for a string-valued key. -/

def pyTruthyStr : Option String → Bool
  | none => false
  | some s => !(s = "")

/-- Python `a or b` on optional strings. -/

def pyOrStr (a b : Option String) : Option String :=
  if pyTruthyStr a then a else b

/-- The user-visible result of `run_arovi_once`:
`final_briefing = state.get("briefing_revised") or state.get("briefing_draft")`,
printed if truthy, else the no-briefing message. -/

def run_arovi_once_result (briefing_revised briefing_draft : Option String) : String :=
  let final_briefing := pyOrStr briefing_revised briefing_draft
  if pyTruthyStr final_briefing then final_briefing.getD ""
  else NO_BRIEFING_MESSAGE

/-! ## The dedupe/filter claims (C3, C9, C10) -/

/-- The per-item keep condition as claim C3 states it: non-empty stripped
title and region, and stripped relevance at least the threshold. -/

def claimItemPasses (min_relevance_len : Nat) (item : ToolItem) : Bool :=
  !(itemTitle item = "" : Bool) && !(itemRegion item = "" : Bool) &&
    decide (min_relevance_len ≤ (itemRelevance item).length)

/-- First-seen dedupe by key, as claim C3 describes it: drop an item exactly
when its key was already seen earlier in this call. -/

def claimDedupeFirst : List ToolItem → List (String × String) → List ToolItem
  | [], _ => []
  | item :: rest, seen =>
    if itemKey item ∈ seen then claimDedupeFirst rest seen
    else item :: claimDedupeFirst rest (itemKey item :: seen)

/-- The two-phase form of claim C3: filter by the per-item conditions, then
keep the first occurrence of each key. -/

def claimFilterDedupe (items : List ToolItem) (min_relevance_len : Nat) :
    List ToolItem :=
  claimDedupeFirst (items.filter (claimItemPasses min_relevance_len)) []

/-- The output contract of the extractor: starts with `\x7b`, ends with
`\x7d`, at least two characters, and fence-free. -/

def GoodBlock (r : List Char) : Prop :=
  r.head? = some lbrace ∧ r.getLast? = some rbrace ∧ 2 ≤ r.length ∧
    hasFence r = false

/-- The fence-stripping step exactly as claim C4 words it: when fence markers
are present, the candidate is the interior content between the first and the
last fence — the concatenation of the split parts strictly between them —
otherwise the whole text. -/

def claimC4Candidate (text : List Char) : List Char :=
  if hasFence text then ((splitFence text).drop 1).dropLast.flatten else text

/-- The extractor exactly as claim C4 words it. -/

def claimC4ExtractL (text : List Char) : List Char :=
  match findIdxC lbrace (claimC4Candidate text),
      rfindC rbrace (claimC4Candidate text) with
  | some s, some e =>
    if s < e then ((claimC4Candidate text).drop s).take (e + 1 - s)
    else [lbrace, rbrace]
  | _, _ => [lbrace, rbrace]

/-- String version of the claim-C4 extractor. -/

def claimC4Extract (text : String) : String := ⟨claimC4ExtractL text.data⟩

/-- The candidate rule as amended: with three or more split parts (at least
two fences) the interior concatenation; with fewer (a single fence
occurrence) the final part, i.e. the text after the fence; without fences the
whole text. -/

def claimC4AmendedCandidate (text : List Char) : List Char :=
  if hasFence text then
    if 3 ≤ (splitFence text).length then
      ((splitFence text).drop 1).dropLast.flatten
    else (splitFence text).getLastD []
  else text

/-- The extractor as amended claim C4 describes it. -/

def claimC4AmendedExtractL (text : List Char) : List Char :=
  match findIdxC lbrace (claimC4AmendedCandidate text),
      rfindC rbrace (claimC4AmendedCandidate text) with
  | some s, some e =>
    if s < e then ((claimC4AmendedCandidate text).drop s).take (e + 1 - s)
    else [lbrace, rbrace]
  | _, _ => [lbrace, rbrace]

/-- String version of the amended claim-C4 extractor. -/

def claimC4AmendedExtract (text : String) : String := ⟨claimC4AmendedExtractL text.data⟩

/-! ## The metrics claim (C7) -/

/-- First-match lookup in the insertion-ordered counts dict (its keys are
unique by construction), defaulting to 0. -/

def countLookup (m : List (String × Nat)) (k : String) : Nat :=
  match m with
  | [] => 0
  | (k2, v) :: rest => if k2 = k then v else countLookup rest k

/-- The region bucketing as claim C7 states it: comparison is
case-insensitive, and an item whose region is missing or unrecognized — not
one of the data model's `global`/`national`/`state`/`city` — falls into the
default bucket `"unknown"`. -/

def claimRegionBucket (item : JVal) : String :=
  match item with
  | JVal.jobj fs =>
    match jLookup fs "region" with
    | some (JVal.jstr s) =>
      if pyLower s ∈ (["global", "national", "state", "city"] : List String)
      then pyLower s else "unknown"
    | _ => "unknown"
  | _ => "unknown"

/-- An item whose region string is not a recognized region. -/

def atlantisItem : JVal := JVal.jobj [("region", JVal.jstr "Atlantis")]

/-- A pipeline state whose tagged items hold `atlantisItem`. -/

def atlantisTagged : Option JVal :=
  some (JVal.jobj [("items", JVal.jarr [atlantisItem])])

/-- A tagged-items state for the C7 witness: one recognizable region with
mixed case, one record without a region, one non-record item. -/

def metricsWitnessTagged : Option JVal :=
  some (JVal.jobj [("items", JVal.jarr
    [JVal.jobj [("region", JVal.jstr "Global")], JVal.jobj [], JVal.jnull])])

/-- A risk-report state with one issue for the C7 witness. -/

def metricsWitnessRisk : Option JVal :=
  some (JVal.jobj [("issues", JVal.jarr [JVal.jnull])])

/-- The item list of `metricsWitnessTagged`. -/

def metricsWitnessItems : List JVal :=
  [JVal.jobj [("region", JVal.jstr "Global")], JVal.jobj [], JVal.jnull]

/-! ## Theorems -/

example : _extract_json_block "" = "\x7b\x7d" := by decide

example : _extract_json_block "blah ```json \x7b\"a\":1\x7d ``` blah" = "\x7b\"a\":1\x7d" := by
  decide

example : _extract_json_block "no braces at all" = "\x7b\x7d" := by decide

example : _extract_json_block "```\x7b\"a\":1\x7d" = "\x7b\"a\":1\x7d" := by decide

example : json_loads "\x7b\x7d" = some (JVal.jobj []) := by rfl

example : json_loads "\x7b\"a\":1\x7d" = some (JVal.jobj [("a", JVal.jnum "1")]) := by rfl

example : json_loads "\x7bworld\x7d" = none := by rfl

example : json_loads " [true, null, \"x\", -1.5e3] " =
    some (JVal.jarr [JVal.jbool true, JVal.jnull, JVal.jstr "x", JVal.jnum "-1.5e3"]) := by
  rfl

example : json_loads "\x7b\"a\": [\x7b\"b\": \"c\"\x7d]\x7d" =
    some (JVal.jobj [("a", JVal.jarr [JVal.jobj [("b", JVal.jstr "c")]])]) := by rfl

example : json_loads "\x7bbad\x7d" = none := by rfl

example : json_loads "01" = none := by rfl

example :
    TaggedItemsParserAgent_run
      (some "```json \x7b\"items\": [\x7b\"region\": \"global\", \"title\": \"T\", \"source\": \"S\", \"url\": \"U\", \"published_date\": \"\", \"summary\": \"Sum\", \"topic\": \"other\", \"sentiment\": \"neutral\", \"public_health_relevance\": \"R\"\x7d]\x7d ```") =
      { items := [⟨"global", "T", "S", "U", "", "Sum", "other", "neutral", "R"⟩] } := by
  rfl

example : TaggedItemsParserAgent_run (some "\x7b\"items\": 5\x7d") = { items := [] } := by rfl

example : TrendNotesParserAgent_run none = emptyTrendNotes := by rfl

example : RiskReportParserAgent_run (some "no json here") = [] := by rfl

example :
    RiskReportParserAgent_run (some "\x7b\"is_safe\": true, \"issues\": []\x7d") =
      [("is_safe", JVal.jbool true), ("issues", JVal.jarr [])] := by rfl

example :
    _filter_and_dedupe_items_impl
      [mkToolItem (some "city") (some "X") (some "short"),
       mkToolItem (some "city") (some "X")
         (some "a sufficiently long justification text exceeding forty chars")] =
      { filtered_items :=
          [mkToolItem (some "city") (some "X")
            (some "a sufficiently long justification text exceeding forty chars")]
        filtered_count := 1
        original_count := 2 } := by decide

example : metrics_agent_run none none = some { tagged_items_count := 0, items_by_region := [], risk_issue_count := 0 } := by rfl

example :
    metrics_agent_run
      (some (JVal.jobj [("items",
        JVal.jarr [JVal.jobj [("region", JVal.jstr "Global")],
                   JVal.jobj [("region", JVal.jstr "global")],
                   JVal.jobj []])]))
      (some (JVal.jobj [("issues", JVal.jarr [JVal.jnull, JVal.jnull])])) =
      some { tagged_items_count := 3
             items_by_region := [("global", 2), ("unknown", 1)]
             risk_issue_count := 2 } := by rfl

example : run_arovi_once_result (some "R") (some "D") = "R" := by decide

example : run_arovi_once_result (some "") (some "D") = "D" := by decide

example : run_arovi_once_result none none = NO_BRIEFING_MESSAGE := by rfl

/-! ## Claims -/

/-- C1: For every raw text input, each parser stage is total (it is a Lean
function, so no exception reaches the pipeline) and fails soft: whenever JSON
extraction plus schema validation fails — malformed JSON, missing required
field, wrong type, or a non-dict top level for the risk report — the stage
writes its defined empty-equivalent default: `\x7b"items": []\x7d` for the
tagged-items parser, the all-empty `TrendNotes` for the trend-notes parser,
and the empty dict for the risk-report parser. -/

theorem C1_parser_stages_fail_soft (raw1 raw2 raw3 : Option String)
    (h1 : validate_news_item_list (_extract_json_block (raw1.getD "")) = none)
    (h2 : validate_trend_notes (_extract_json_block (raw2.getD "")) = none)
    (h3 : validate_risk_report (_extract_json_block (raw3.getD "")) = none) :
    TaggedItemsParserAgent_run raw1 = { items := [] } ∧
    TrendNotesParserAgent_run raw2 = emptyTrendNotes ∧
    RiskReportParserAgent_run raw3 = [] := by
  refine ⟨?_, ?_, ?_⟩
  · simp [TaggedItemsParserAgent_run, h1]
  · simp [TrendNotesParserAgent_run, h2]
  · simp [RiskReportParserAgent_run, h3]

/-- Witness for C1: on the unparseable raw text `\x7bbad\x7d` the three
validation hypotheses hold and the stages produce their defaults. -/

theorem C1_parser_stages_fail_soft_witness :
    (validate_news_item_list
        (_extract_json_block ((some "\x7bbad\x7d" : Option String).getD "")) = none ∧
      validate_trend_notes
        (_extract_json_block ((some "\x7bbad\x7d" : Option String).getD "")) = none ∧
      validate_risk_report
        (_extract_json_block ((some "\x7bbad\x7d" : Option String).getD "")) = none) ∧
    TaggedItemsParserAgent_run (some "\x7bbad\x7d") = { items := [] } ∧
    TrendNotesParserAgent_run (some "\x7bbad\x7d") = emptyTrendNotes ∧
    RiskReportParserAgent_run (some "\x7bbad\x7d") = [] := by
  have h := C1_parser_stages_fail_soft (some "\x7bbad\x7d") (some "\x7bbad\x7d")
    (some "\x7bbad\x7d") rfl rfl rfl
  exact ⟨⟨rfl, rfl, rfl⟩, h.1, h.2.1, h.2.2⟩

/-- C2: The revise loop repeats the ordered sub-sequence [risk-check stage,
risk-report parse stage, redraft stage] and, for every oracle behaviour and
every initial state — hence for every possible content of the risk report,
including `is_safe = true` or an empty report — halts after exactly the
configured `max_iterations = 2` full iterations, with no early exit: the
executed trace is the sub-agent sequence twice. -/

theorem C2_risk_loop_runs_to_cap
    (oracle_check oracle_redraft : RiskLoopState → String) (s0 : RiskLoopState) :
    (risk_loop_agent_run oracle_check oracle_redraft s0).2 =
      [RiskStage.risk_checker_agent, RiskStage.risk_report_parser_agent,
       RiskStage.redraft_agent,
       RiskStage.risk_checker_agent, RiskStage.risk_report_parser_agent,
       RiskStage.redraft_agent] := by
  rfl

/-- C6: The user-visible result of a run is `briefing_revised` when that key
holds a non-empty string, else `briefing_draft` when that holds a non-empty
string, else the explicit no-briefing message — and it is never the empty
string ("present" is Python truthiness, which is what the `or` chain in
runner.py tests, and what the claim's own "never an empty response" clause
requires). -/

theorem C6_final_briefing_priority (briefing_revised briefing_draft : Option String) :
    (∀ r, briefing_revised = some r → r ≠ "" →
      run_arovi_once_result briefing_revised briefing_draft = r) ∧
    (pyTruthyStr briefing_revised = false →
      ∀ d, briefing_draft = some d → d ≠ "" →
        run_arovi_once_result briefing_revised briefing_draft = d) ∧
    (pyTruthyStr briefing_revised = false → pyTruthyStr briefing_draft = false →
      run_arovi_once_result briefing_revised briefing_draft = NO_BRIEFING_MESSAGE) ∧
    run_arovi_once_result briefing_revised briefing_draft ≠ "" := by
  refine ⟨?_, ?_, ?_, ?_⟩
  · intro r hr hne
    subst hr
    simp [run_arovi_once_result, pyOrStr, pyTruthyStr, hne]
  · intro hrev d hd hne
    subst hd
    simp only [run_arovi_once_result, pyOrStr, hrev]
    simp [pyTruthyStr, hne]
  · intro hrev hd
    simp only [run_arovi_once_result, pyOrStr, hrev, hd]
    simp [hd]
  · show (if pyTruthyStr (pyOrStr briefing_revised briefing_draft) = true then
        (pyOrStr briefing_revised briefing_draft).getD "" else NO_BRIEFING_MESSAGE) ≠ ""
    cases hb : pyOrStr briefing_revised briefing_draft with
    | none =>
      simp only [pyTruthyStr, Bool.false_eq_true, if_false]
      decide
    | some s =>
      by_cases hs : s = ""
      · subst hs
        simp only [pyTruthyStr, decide_True, Bool.not_true, Bool.false_eq_true, if_false]
        decide
      · simp [pyTruthyStr, hs]

/-- Witness for C6: each branch of the priority order at concrete states. -/

theorem C6_final_briefing_priority_witness :
    run_arovi_once_result (some "R") (some "D") = "R" ∧
    run_arovi_once_result none (some "D") = "D" ∧
    run_arovi_once_result (some "") none = NO_BRIEFING_MESSAGE := by
  refine ⟨?_, ?_, ?_⟩
  · exact (C6_final_briefing_priority (some "R") (some "D")).1 "R" rfl (by decide)
  · exact (C6_final_briefing_priority none (some "D")).2.1 (by decide) "D" rfl (by decide)
  · exact (C6_final_briefing_priority (some "") none).2.2.1 (by decide) (by decide)

theorem claimItemPasses_iff (n : Nat) (item : ToolItem) :
    claimItemPasses n item = true ↔
      itemTitle item ≠ "" ∧ itemRegion item ≠ "" ∧
        n ≤ (itemRelevance item).length := by
  simp [claimItemPasses, and_assoc]

/-- The fused loop of the source equals the two-phase form of the claim. -/

theorem fadGo_eq_claim (n : Nat) :
    ∀ (items : List ToolItem) (seen : List (String × String)),
    fadGo n items seen = claimDedupeFirst (items.filter (claimItemPasses n)) seen := by
  intro items
  induction items with
  | nil => intro seen; rfl
  | cons item rest ih =>
    intro seen
    rw [List.filter_cons]
    by_cases h1 : itemTitle item = "" ∨ itemRegion item = ""
    · have hp : ¬(claimItemPasses n item = true) := by
        rcases h1 with h | h <;> simp [claimItemPasses, h]
      rcases h1 with h | h <;> simp [fadGo, h, hp, ih]
    · push_neg at h1
      by_cases h2 : (itemRelevance item).length < n
      · have hp : ¬(claimItemPasses n item = true) := by
          simp [claimItemPasses, Nat.not_le.mpr h2]
        simp [fadGo, h1.1, h1.2, h2, hp, ih]
      · have hp : claimItemPasses n item = true := by
          simp [claimItemPasses, h1.1, h1.2, Nat.not_lt.mp h2]
        by_cases hk : itemKey item ∈ seen <;>
          simp [fadGo, claimDedupeFirst, h1.1, h1.2, h2, hp, itemKey, hk, ih]

/-- First-seen dedupe returns a sublist of its input. -/

theorem claimDedupeFirst_sublist :
    ∀ (l : List ToolItem) (seen : List (String × String)),
    List.Sublist (claimDedupeFirst l seen) l := by
  intro l
  induction l with
  | nil => intro seen; simp [claimDedupeFirst]
  | cons item rest ih =>
    intro seen
    by_cases hk : itemKey item ∈ seen
    · simp only [claimDedupeFirst, if_pos hk]
      exact List.Sublist.cons item (ih seen)
    · simp only [claimDedupeFirst, if_neg hk]
      exact List.Sublist.cons₂ item (ih (itemKey item :: seen))

/-- The keys of the deduped list are distinct and avoid the seen set. -/

theorem claimDedupeFirst_keys :
    ∀ (l : List ToolItem) (seen : List (String × String)),
    ((claimDedupeFirst l seen).map itemKey).Nodup ∧
      ∀ k ∈ (claimDedupeFirst l seen).map itemKey, k ∉ seen := by
  intro l
  induction l with
  | nil => intro seen; simp [claimDedupeFirst]
  | cons item rest ih =>
    intro seen
    by_cases hk : itemKey item ∈ seen
    · simpa only [claimDedupeFirst, if_pos hk] using ih seen
    · simp only [claimDedupeFirst, if_neg hk, List.map_cons, List.nodup_cons,
        List.mem_cons]
      have hrec := ih (itemKey item :: seen)
      refine ⟨⟨?_, hrec.1⟩, ?_⟩
      · intro hmem
        exact (hrec.2 _ hmem) (List.mem_cons_self _ _)
      · rintro k (rfl | hmem)
        · exact hk
        · intro hseen
          exact (hrec.2 k hmem) (List.mem_cons_of_mem _ hseen)

/-- Items of the fused loop's output satisfy the keep conditions. -/

theorem fadGo_mem_passes (n : Nat) (items : List ToolItem)
    (item : ToolItem) (h : item ∈ fadGo n items []) :
    claimItemPasses n item = true := by
  rw [fadGo_eq_claim] at h
  have hsub := claimDedupeFirst_sublist (items.filter (claimItemPasses n)) []
  have := hsub.subset h
  exact (List.mem_filter.mp this).2

/-- If every item passes, no key repeats, and no key is in `seen`, the loop
returns its input unchanged. -/

theorem fadGo_fixpoint (n : Nat) :
    ∀ (l : List ToolItem) (seen : List (String × String)),
    (∀ item ∈ l, claimItemPasses n item = true) →
    (l.map itemKey).Nodup →
    (∀ k ∈ l.map itemKey, k ∉ seen) →
    fadGo n l seen = l := by
  intro l
  induction l with
  | nil => intro seen _ _ _; rfl
  | cons item rest ih =>
    intro seen hpass hnodup hdis
    have hp := hpass item (List.mem_cons_self _ _)
    rw [claimItemPasses_iff] at hp
    have hk : itemKey item ∉ seen := hdis (itemKey item) (by simp)
    rw [List.map_cons, List.nodup_cons] at hnodup
    have hrest : fadGo n rest (itemKey item :: seen) = rest := by
      refine ih (itemKey item :: seen)
        (fun x hx => hpass x (List.mem_cons_of_mem _ hx)) hnodup.2 ?_
      intro k hkmem hkin
      rcases List.mem_cons.mp hkin with h | h
      · exact hnodup.1 (h ▸ hkmem)
      · exact hdis k (List.mem_cons_of_mem _ hkmem) h
    simp only [itemKey] at hk hrest
    simp [fadGo, hp.1, hp.2.1, Nat.not_lt.mpr hp.2.2, hk, hrest]

/-- C3: For every input list and threshold, the dedupe/filter iterates in
order and drops an item exactly when its stripped title or region is empty,
its stripped relevance is shorter than the threshold, or its key (lowercased
stripped region, lowercased stripped title) was already seen this call — this
is the equality with the two-phase claim form; consequently retained items
keep first-seen order (a sublist of the input), every retained item has
non-empty title and region and relevance of at least the threshold, no two
retained items share a key, and the result carries the two counts.  The
threshold defaults to 40. -/

theorem C3_filter_and_dedupe (items : List ToolItem) (min_relevance_len : Nat) :
    (_filter_and_dedupe_items_impl items min_relevance_len).filtered_items =
        claimFilterDedupe items min_relevance_len ∧
    List.Sublist
        (_filter_and_dedupe_items_impl items min_relevance_len).filtered_items items ∧
    (∀ item ∈ (_filter_and_dedupe_items_impl items min_relevance_len).filtered_items,
        itemTitle item ≠ "" ∧ itemRegion item ≠ "" ∧
          min_relevance_len ≤ (itemRelevance item).length) ∧
    ((_filter_and_dedupe_items_impl items min_relevance_len).filtered_items.map
        itemKey).Nodup ∧
    (_filter_and_dedupe_items_impl items min_relevance_len).filtered_count =
        (_filter_and_dedupe_items_impl items min_relevance_len).filtered_items.length ∧
    (_filter_and_dedupe_items_impl items min_relevance_len).original_count =
        items.length ∧
    _filter_and_dedupe_items_impl items = _filter_and_dedupe_items_impl items 40 := by
  refine ⟨?_, ?_, ?_, ?_, rfl, rfl, rfl⟩
  · exact fadGo_eq_claim min_relevance_len items []
  · show List.Sublist (fadGo min_relevance_len items []) items
    rw [fadGo_eq_claim]
    exact (claimDedupeFirst_sublist _ []).trans (List.filter_sublist items)
  · intro item h
    exact (claimItemPasses_iff min_relevance_len item).mp
      (fadGo_mem_passes min_relevance_len items item h)
  · show ((fadGo min_relevance_len items []).map itemKey).Nodup
    rw [fadGo_eq_claim]
    exact (claimDedupeFirst_keys _ []).1

/-- C9: The dedupe/filter is stateless (same input, same result — it is a
pure function of its arguments) and idempotent: re-running it on its own
`filtered_items` returns that list unchanged, with `filtered_count` equal to
`original_count`. -/

theorem C9_filter_and_dedupe_idempotent (items : List ToolItem)
    (min_relevance_len : Nat) :
    _filter_and_dedupe_items_impl items min_relevance_len =
        _filter_and_dedupe_items_impl items min_relevance_len ∧
    (_filter_and_dedupe_items_impl
        ((_filter_and_dedupe_items_impl items min_relevance_len).filtered_items)
        min_relevance_len).filtered_items =
      (_filter_and_dedupe_items_impl items min_relevance_len).filtered_items ∧
    (_filter_and_dedupe_items_impl
        ((_filter_and_dedupe_items_impl items min_relevance_len).filtered_items)
        min_relevance_len).filtered_count =
      (_filter_and_dedupe_items_impl
        ((_filter_and_dedupe_items_impl items min_relevance_len).filtered_items)
        min_relevance_len).original_count := by
  have hfix :
      fadGo min_relevance_len (fadGo min_relevance_len items []) [] =
        fadGo min_relevance_len items [] := by
    refine fadGo_fixpoint min_relevance_len (fadGo min_relevance_len items []) []
      (fun x hx => fadGo_mem_passes min_relevance_len items x hx) ?_ (by simp)
    have := fadGo_eq_claim min_relevance_len items []
    rw [this]
    exact (claimDedupeFirst_keys _ []).1
  refine ⟨rfl, hfix, ?_⟩
  show (fadGo min_relevance_len (fadGo min_relevance_len items []) []).length =
    (fadGo min_relevance_len items []).length
  rw [hfix]

/-- C10: The dedupe/filter never modifies retained records: the output is a
sublist of the input, so each retained record is an input record with every
field — including whitespace and casing of title, region and relevance —
unchanged; normalization is used only for the drop/keep decision.  The
concrete conjunct shows a record with padded, mixed-case fields surviving
verbatim. -/

theorem C10_filter_and_dedupe_frame (items : List ToolItem)
    (min_relevance_len : Nat) :
    List.Sublist
        (_filter_and_dedupe_items_impl items min_relevance_len).filtered_items items ∧
    (∀ item ∈ (_filter_and_dedupe_items_impl items min_relevance_len).filtered_items,
        item ∈ items) ∧
    (_filter_and_dedupe_items_impl
        [mkToolItem (some "  CiTy ") (some " The  Title ") (some " why it matters ")]
        5).filtered_items =
      [mkToolItem (some "  CiTy ") (some " The  Title ") (some " why it matters ")] := by
  have hsub : List.Sublist
      (_filter_and_dedupe_items_impl items min_relevance_len).filtered_items items := by
    show List.Sublist (fadGo min_relevance_len items []) items
    rw [fadGo_eq_claim]
    exact (claimDedupeFirst_sublist _ []).trans (List.filter_sublist items)
  exact ⟨hsub, fun item h => hsub.subset h, by decide⟩

/-! ## Structure of `_extract_json_block` output (C4, C5, C8)

The key invariant: the candidate text produced by the fence-stripping step
never contains a fence, because the parts of a split never contain the
separator and no non-final part ends in a backtick (a leftmost match could
otherwise shift left). -/

theorem take_two_append (a b : List Char) (h : a.take 2 = [btick, btick]) :
    (a ++ b).take 2 = [btick, btick] := by
  have hlen : 2 ≤ a.length := by
    have := congrArg List.length h
    simp [List.length_take] at this
    omega
  rw [List.take_append_eq_append_take]
  have h0 : 2 - a.length = 0 := by omega
  simp [h0, h]

theorem hasFence_append_right (a b : List Char) (h : hasFence b = true) :
    hasFence (a ++ b) = true := by
  induction a with
  | nil => simpa using h
  | cons c a ih => simp [hasFence, ih]

theorem hasFence_append_left (a b : List Char) (h : hasFence a = true) :
    hasFence (a ++ b) = true := by
  induction a with
  | nil => simp [hasFence] at h
  | cons c a ih =>
    simp only [hasFence, Bool.or_eq_true, Bool.and_eq_true, decide_eq_true_eq] at h
    rcases h with ⟨hc, ht⟩ | h
    · rw [List.cons_append]
      simp only [hasFence, Bool.or_eq_true, Bool.and_eq_true, decide_eq_true_eq]
      exact Or.inl ⟨hc, take_two_append a b ht⟩
    · rw [List.cons_append]
      simp only [hasFence, Bool.or_eq_true]
      exact Or.inr (ih h)

theorem hasFence_append_eq_false : ∀ (a b : List Char), hasFence a = false →
    hasFence b = false → a.getLast? ≠ some btick → hasFence (a ++ b) = false
  | [], b, _, hb, _ => by simpa using hb
  | [c], b, _, hb, hlast => by
    simp only [List.getLast?_singleton, ne_eq, Option.some.injEq] at hlast
    simp only [List.singleton_append, hasFence, Bool.or_eq_false_iff]
    exact ⟨by simp [hlast], hb⟩
  | c :: d :: a, b, ha, hb, hlast => by
    rw [hasFence, Bool.or_eq_false_iff] at ha
    have hrec := hasFence_append_eq_false (d :: a) b ha.2 hb
      (by rwa [List.getLast?_cons_cons] at hlast)
    rw [List.cons_append, hasFence, Bool.or_eq_false_iff]
    refine ⟨?_, by simpa using hrec⟩
    by_cases hc : c = btick
    · subst hc
      simp only [decide_True, Bool.true_and]
      have ha1 : decide ((d :: a).take 2 = [btick, btick]) = false := by
        simpa using ha.1
      cases a with
      | nil =>
        have hd : d ≠ btick := by
          simp only [List.getLast?_cons_cons, List.getLast?_singleton, ne_eq,
            Option.some.injEq] at hlast
          exact hlast
        have htake : (d :: ([] : List Char) ++ b).take 2 = d :: b.take 1 := rfl
        rw [htake]
        simp [hd]
      | cons e a2 =>
        have htake : (d :: e :: a2 ++ b).take 2 = [d, e] := rfl
        have htake2 : (d :: e :: a2).take 2 = [d, e] := rfl
        rw [htake]
        rw [htake2] at ha1
        exact ha1
    · simp [hc]

theorem flatten_no_fence : ∀ (L : List (List Char)),
    (∀ p ∈ L, hasFence p = false) →
    (∀ p ∈ L.dropLast, p.getLast? ≠ some btick) →
    hasFence L.flatten = false
  | [], _, _ => rfl
  | [p], hall, _ => by simpa using hall p (by simp)
  | p :: q :: L, hall, hlast => by
    have h2 : hasFence (q :: L).flatten = false :=
      flatten_no_fence (q :: L) (fun x hx => hall x (List.mem_cons_of_mem _ hx))
        (fun x hx => hlast x (by simpa using Or.inr hx))
    have h3 : p.getLast? ≠ some btick := hlast p (by simp)
    simpa using
      hasFence_append_eq_false p (q :: L).flatten (hall p (by simp)) h2 h3

theorem splitFenceGo_ne_nil : ∀ (fuel : Nat) (s : List Char),
    splitFenceGo fuel s ≠ []
  | _, [] => by simp [splitFenceGo]
  | 0, c :: rest => by simp [splitFenceGo]
  | fuel + 1, c :: rest => by
    rw [splitFenceGo]
    split
    · simp
    · split <;> simp

theorem splitFenceGo_head_prefix : ∀ (fuel : Nat) (s q : List Char)
    (qs : List (List Char)), splitFenceGo fuel s = q :: qs → ∃ t, s = q ++ t
  | fuel, [], q, qs => by
    intro h
    rw [splitFenceGo] at h
    cases h
    exact ⟨[], rfl⟩
  | 0, c :: rest, q, qs => by
    intro h
    simp only [splitFenceGo] at h
    cases h
    exact ⟨[], by simp⟩
  | fuel + 1, c :: rest, q, qs => by
    intro h
    by_cases hc : c = btick ∧ rest.take 2 = [btick, btick]
    · rw [splitFenceGo, if_pos hc] at h
      cases h
      exact ⟨c :: rest, rfl⟩
    · cases hrec : splitFenceGo fuel rest with
      | nil => exact absurd hrec (splitFenceGo_ne_nil fuel rest)
      | cons p ps =>
        obtain ⟨t, ht⟩ := splitFenceGo_head_prefix fuel rest p ps hrec
        rw [splitFenceGo, if_neg hc, hrec] at h
        cases h
        exact ⟨t, by rw [List.cons_append, ← ht]⟩

theorem splitFenceGo_head_nil : ∀ (fuel : Nat) (s q : List Char)
    (qs : List (List Char)), splitFenceGo fuel s = [] :: q :: qs →
    ∃ r, s = btick :: btick :: btick :: r
  | fuel, [], q, qs => by
    intro h
    rw [splitFenceGo] at h
    cases h
  | 0, c :: rest, q, qs => by
    intro h
    simp only [splitFenceGo] at h
    cases h
  | fuel + 1, c :: rest, q, qs => by
    intro h
    by_cases hc : c = btick ∧ rest.take 2 = [btick, btick]
    · obtain ⟨hcb, htake⟩ := hc
      subst hcb
      cases rest with
      | nil => simp at htake
      | cons b1 r1 =>
        cases r1 with
        | nil => simp at htake
        | cons b2 r =>
          have ht2 : ([b1, b2] : List Char) = [btick, btick] := htake
          injection ht2 with e1 ht3
          injection ht3 with e2 _
          exact ⟨r, by rw [e1, e2]⟩
    · cases hrec : splitFenceGo fuel rest with
      | nil => exact absurd hrec (splitFenceGo_ne_nil fuel rest)
      | cons p ps =>
        rw [splitFenceGo, if_neg hc, hrec] at h
        cases h

theorem splitFenceGo_no_fence : ∀ (fuel : Nat) (s : List Char), s.length ≤ fuel →
    ∀ p ∈ splitFenceGo fuel s, hasFence p = false
  | fuel, [], _, p, hp => by
    rw [splitFenceGo] at hp
    simp at hp
    subst hp
    rfl
  | 0, c :: rest, h, p, hp => by simp at h
  | fuel + 1, c :: rest, h, p, hp => by
    have hr : rest.length ≤ fuel := by simpa using h
    by_cases hc : c = btick ∧ rest.take 2 = [btick, btick]
    · rw [splitFenceGo, if_pos hc] at hp
      rcases List.mem_cons.mp hp with rfl | hp2
      · rfl
      · have hdrop : (rest.drop 2).length ≤ fuel := by
          rw [List.length_drop]
          exact le_trans (Nat.sub_le _ _) hr
        exact splitFenceGo_no_fence fuel (rest.drop 2) hdrop p hp2
    · cases hrec : splitFenceGo fuel rest with
      | nil => exact absurd hrec (splitFenceGo_ne_nil fuel rest)
      | cons p1 ps =>
        rw [splitFenceGo, if_neg hc, hrec] at hp
        rcases List.mem_cons.mp hp with rfl | hp2
        · rw [hasFence, Bool.or_eq_false_iff]
          constructor
          · by_cases hcb : c = btick
            · subst hcb
              simp only [decide_True, Bool.true_and]
              obtain ⟨t, ht⟩ := splitFenceGo_head_prefix fuel rest p1 ps hrec
              by_cases h2 : p1.take 2 = [btick, btick]
              · exact absurd ⟨rfl, by rw [ht]; exact take_two_append p1 t h2⟩ hc
              · simpa using h2
            · simp [hcb]
          · exact splitFenceGo_no_fence fuel rest hr p1
              (by rw [hrec]; exact List.mem_cons_self p1 ps)
        · exact splitFenceGo_no_fence fuel rest hr p
            (by rw [hrec]; exact List.mem_cons_of_mem p1 hp2)

theorem splitFenceGo_dropLast : ∀ (fuel : Nat) (s : List Char), s.length ≤ fuel →
    ∀ p ∈ (splitFenceGo fuel s).dropLast, p.getLast? ≠ some btick
  | fuel, [], _, p, hp => by
    rw [splitFenceGo] at hp
    simp at hp
  | 0, c :: rest, h, p, hp => by simp at h
  | fuel + 1, c :: rest, h, p, hp => by
    have hr : rest.length ≤ fuel := by simpa using h
    by_cases hc : c = btick ∧ rest.take 2 = [btick, btick]
    · rw [splitFenceGo, if_pos hc] at hp
      cases hT : splitFenceGo fuel (rest.drop 2) with
      | nil => exact absurd hT (splitFenceGo_ne_nil _ _)
      | cons t ts =>
        rw [hT] at hp
        have hD : (([] : List Char) :: t :: ts).dropLast = [] :: (t :: ts).dropLast := rfl
        rw [hD] at hp
        rcases List.mem_cons.mp hp with rfl | hp2
        · simp
        · have hdrop : (rest.drop 2).length ≤ fuel := by
            rw [List.length_drop]
            exact le_trans (Nat.sub_le _ _) hr
          exact splitFenceGo_dropLast fuel (rest.drop 2) hdrop p (by rw [hT]; exact hp2)
    · cases hrec : splitFenceGo fuel rest with
      | nil => exact absurd hrec (splitFenceGo_ne_nil fuel rest)
      | cons p1 ps =>
        rw [splitFenceGo, if_neg hc, hrec] at hp
        cases ps with
        | nil => simp at hp
        | cons x ps2 =>
          have hD : ((c :: p1) :: x :: ps2).dropLast =
              (c :: p1) :: (x :: ps2).dropLast := rfl
          rw [hD] at hp
          have hD2 : (p1 :: x :: ps2).dropLast = p1 :: (x :: ps2).dropLast := rfl
          rcases List.mem_cons.mp hp with rfl | hp2
          · cases p1 with
            | nil =>
              obtain ⟨r, hrfence⟩ := splitFenceGo_head_nil fuel rest x ps2 hrec
              have htk : rest.take 2 = [btick, btick] := by rw [hrfence]; rfl
              have hcb : c ≠ btick := fun hcb => hc ⟨hcb, htk⟩
              simpa [List.getLast?_singleton] using hcb
            | cons y p1' =>
              rw [List.getLast?_cons_cons]
              exact splitFenceGo_dropLast fuel rest hr (y :: p1')
                (by rw [hrec, hD2]; exact List.mem_cons_self _ _)
          · exact splitFenceGo_dropLast fuel rest hr p
              (by rw [hrec, hD2]; exact List.mem_cons_of_mem _ hp2)

theorem dropLast_drop_comm {α : Type} (l : List α) (n : Nat) :
    (l.drop n).dropLast = l.dropLast.drop n := by
  induction l generalizing n with
  | nil => simp
  | cons x xs ih =>
    cases n with
    | zero => simp
    | succ m =>
      cases xs with
      | nil => simp
      | cons y ys => simpa using ih (m)

theorem getLastD_mem : ∀ (l : List (List Char)) (d : List Char), l ≠ [] →
    l.getLastD d ∈ l
  | [], _, h => absurd rfl h
  | [x], d, _ => by simp [List.getLastD]
  | x :: y :: l, d, _ => by
    have h1 : (x :: y :: l).getLastD d = (y :: l).getLastD x := rfl
    rw [h1]
    exact List.mem_cons_of_mem x (getLastD_mem (y :: l) x (by simp))

/-- The candidate text in which `_extract_json_block` locates braces never
contains a fence. -/

theorem extractCandidate_no_fence (text : List Char) :
    hasFence (extractCandidate text) = false := by
  unfold extractCandidate
  split
  · show hasFence (if 3 ≤ (splitFence text).length then
        ((splitFence text).drop 1).dropLast.flatten
      else (splitFence text).getLastD []) = false
    split
    · apply flatten_no_fence
      · intro p hp
        have hp1 : p ∈ (splitFence text).drop 1 := List.dropLast_subset _ hp
        have hp2 : p ∈ splitFence text := List.drop_subset 1 _ hp1
        exact splitFenceGo_no_fence text.length text le_rfl p hp2
      · intro p hp
        have hcomm : ((splitFence text).drop 1).dropLast =
            ((splitFence text).dropLast).drop 1 := dropLast_drop_comm _ 1
        rw [hcomm] at hp
        have hp1 : p ∈ ((splitFence text).dropLast).drop 1 := List.dropLast_subset _ hp
        have hp2 : p ∈ (splitFence text).dropLast := List.drop_subset 1 _ hp1
        exact splitFenceGo_dropLast text.length text le_rfl p hp2
    · have hne : splitFence text ≠ [] := splitFenceGo_ne_nil _ _
      exact splitFenceGo_no_fence text.length text le_rfl _ (getLastD_mem _ [] hne)
  · next h =>
    exact Bool.of_not_eq_true h

theorem findIdxC_head (c : Char) (l : List Char) (h : l.head? = some c) :
    findIdxC c l = some 0 := by
  cases l with
  | nil => simp at h
  | cons x xs =>
    simp only [List.head?_cons, Option.some.injEq] at h
    subst h
    simp [findIdxC]

theorem findIdxC_drop_head : ∀ (c : Char) (l : List Char) (i : Nat),
    findIdxC c l = some i → (l.drop i).head? = some c
  | c, [], i => by simp [findIdxC]
  | c, x :: xs, i => by
    intro h
    rw [findIdxC] at h
    split at h
    · next hx =>
      cases h
      simp [hx]
    · cases hx : findIdxC c xs with
      | none => rw [hx] at h; simp at h
      | some j =>
        rw [hx] at h
        simp only [Option.map_some', Option.some.injEq] at h
        subst h
        simpa using findIdxC_drop_head c xs j hx

theorem rfindC_lt_length : ∀ (c : Char) (l : List Char) (i : Nat),
    rfindC c l = some i → i < l.length
  | c, [], i => by simp [rfindC]
  | c, x :: xs, i => by
    intro h
    rw [rfindC] at h
    cases hx : rfindC c xs with
    | some j =>
      rw [hx] at h
      cases h
      have := rfindC_lt_length c xs j hx
      simp only [List.length_cons]
      omega
    | none =>
      rw [hx] at h
      have h2 : (if x = c then (some 0 : Option Nat) else none) = some i := h
      split at h2
      · cases h2
        simp
      · simp at h2

theorem rfindC_getElem : ∀ (c : Char) (l : List Char) (i : Nat),
    rfindC c l = some i → l[i]? = some c
  | c, [], i => by simp [rfindC]
  | c, x :: xs, i => by
    intro h
    rw [rfindC] at h
    cases hx : rfindC c xs with
    | some j =>
      rw [hx] at h
      cases h
      simpa using rfindC_getElem c xs j hx
    | none =>
      rw [hx] at h
      have h2 : (if x = c then (some 0 : Option Nat) else none) = some i := h
      split at h2
      · next hxc =>
        cases h2
        simp [hxc]
      · simp at h2

theorem rfindC_of_getLast? : ∀ (l : List Char) (c : Char), l.getLast? = some c →
    rfindC c l = some (l.length - 1)
  | [], c, h => by simp at h
  | [x], c, h => by
    simp only [List.getLast?_singleton, Option.some.injEq] at h
    subst h
    simp [rfindC]
  | x :: y :: l, c, h => by
    rw [List.getLast?_cons_cons] at h
    have hr := rfindC_of_getLast? (y :: l) c h
    rw [rfindC, hr]
    simp only [List.length_cons, Option.some.injEq]
    omega

theorem head?_take_pos (l : List Char) (n : Nat) (h : 1 ≤ n) :
    (l.take n).head? = l.head? := by
  cases l with
  | nil => simp
  | cons x xs =>
    cases n with
    | zero => omega
    | succ m => simp

theorem goodBlock_lit : GoodBlock [lbrace, rbrace] :=
  ⟨rfl, rfl, by simp, by decide⟩

/-- Shape of every `_extract_json_block` output. -/

theorem extractL_shape (l : List Char) : GoodBlock (extractL l) := by
  unfold extractL
  split
  · exact goodBlock_lit
  · have hnf : hasFence (extractCandidate l) = false := extractCandidate_no_fence l
    cases hfind : findIdxC lbrace (extractCandidate l) with
    | none => exact goodBlock_lit
    | some s =>
      cases hrfind : rfindC rbrace (extractCandidate l) with
      | none => exact goodBlock_lit
      | some e =>
        show GoodBlock (if e ≤ s then [lbrace, rbrace]
          else ((extractCandidate l).drop s).take (e + 1 - s))
        split
        · exact goodBlock_lit
        · next hes =>
          have hse : s < e := Nat.lt_of_not_le hes
          have helen : e < (extractCandidate l).length :=
            rfindC_lt_length rbrace _ e hrfind
          have hhead : (((extractCandidate l).drop s).take (e + 1 - s)).head? =
              some lbrace := by
            rw [head?_take_pos _ _ (by omega)]
            exact findIdxC_drop_head lbrace _ s hfind
          have hlen : (((extractCandidate l).drop s).take (e + 1 - s)).length =
              e + 1 - s := by
            rw [List.length_take, List.length_drop]
            omega
          have hlast : (((extractCandidate l).drop s).take (e + 1 - s)).getLast? =
              some rbrace := by
            rw [List.getLast?_eq_getElem?, hlen]
            have h1 : e + 1 - s - 1 = e - s := by omega
            rw [h1, List.getElem?_take_of_lt (by omega), List.getElem?_drop]
            have h2 : s + (e - s) = e := by omega
            rw [h2]
            exact rfindC_getElem rbrace _ e hrfind
          have hfen : hasFence (((extractCandidate l).drop s).take (e + 1 - s)) =
              false := by
            cases hfs : hasFence (((extractCandidate l).drop s).take (e + 1 - s)) with
            | false => rfl
            | true =>
              exfalso
              have h1 : hasFence ((extractCandidate l).drop s) = true := by
                rw [← List.take_append_drop (e + 1 - s) ((extractCandidate l).drop s)]
                exact hasFence_append_left _ _ hfs
              have h2 : hasFence (extractCandidate l) = true := by
                rw [← List.take_append_drop s (extractCandidate l)]
                exact hasFence_append_right _ _ h1
              rw [hnf] at h2
              exact Bool.false_ne_true h2
          exact ⟨hhead, hlast, by rw [hlen]; omega, hfen⟩

/-- Any fence-free list that starts with `\x7b`, ends with `\x7d` and has at
least two characters is a fixed point of the extractor. -/

theorem extractL_fixed (r : List Char) (hgood : GoodBlock r) : extractL r = r := by
  obtain ⟨hhead, hlast, hlen, hnf⟩ := hgood
  have hne : ¬(r = []) := by
    intro h
    subst h
    simp at hlen
  have hcand : extractCandidate r = r := by
    simp [extractCandidate, hnf]
  unfold extractL
  rw [if_neg hne, hcand, findIdxC_head lbrace r hhead,
    rfindC_of_getLast? r rbrace hlast]
  show (if r.length - 1 ≤ 0 then [lbrace, rbrace]
      else (r.drop 0).take (r.length - 1 + 1 - 0)) = r
  rw [if_neg (by omega)]
  have h1 : r.length - 1 + 1 - 0 = r.length := by omega
  rw [List.drop_zero, h1, List.take_length]

/-- Every character of a split part occurs in the split input. -/

theorem splitFenceGo_mem_subset : ∀ (fuel : Nat) (s : List Char),
    ∀ p ∈ splitFenceGo fuel s, ∀ c ∈ p, c ∈ s
  | fuel, [], p, hp, c, hc => by
    rw [splitFenceGo] at hp
    simp at hp
    subst hp
    simp at hc
  | 0, x :: rest, p, hp, c, hc => by
    simp only [splitFenceGo] at hp
    simp at hp
    subst hp
    exact hc
  | fuel + 1, x :: rest, p, hp, c, hc => by
    by_cases hcx : x = btick ∧ rest.take 2 = [btick, btick]
    · rw [splitFenceGo, if_pos hcx] at hp
      rcases List.mem_cons.mp hp with rfl | hp2
      · simp at hc
      · have := splitFenceGo_mem_subset fuel (rest.drop 2) p hp2 c hc
        exact List.mem_cons_of_mem x (List.drop_subset 2 rest this)
    · cases hrec : splitFenceGo fuel rest with
      | nil => exact absurd hrec (splitFenceGo_ne_nil fuel rest)
      | cons p1 ps =>
        rw [splitFenceGo, if_neg hcx, hrec] at hp
        rcases List.mem_cons.mp hp with rfl | hp2
        · rcases List.mem_cons.mp hc with rfl | hc2
          · exact List.mem_cons_self c rest
          · exact List.mem_cons_of_mem x
              (splitFenceGo_mem_subset fuel rest p1
                (by rw [hrec]; exact List.mem_cons_self p1 ps) c hc2)
        · exact List.mem_cons_of_mem x
            (splitFenceGo_mem_subset fuel rest p
              (by rw [hrec]; exact List.mem_cons_of_mem p1 hp2) c hc)

/-- Every character of the extraction candidate occurs in the input text. -/

theorem extractCandidate_subset (text : List Char) :
    ∀ c ∈ extractCandidate text, c ∈ text := by
  intro c hc
  unfold extractCandidate at hc
  split at hc
  · rw [show (let parts := splitFence text;
        if 3 ≤ parts.length then (parts.drop 1).dropLast.flatten
        else parts.getLastD []) =
        (if 3 ≤ (splitFence text).length then
          ((splitFence text).drop 1).dropLast.flatten
        else (splitFence text).getLastD []) from rfl] at hc
    split at hc
    · obtain ⟨p, hpl, hcp⟩ := List.mem_flatten.mp hc
      have hp1 : p ∈ (splitFence text).drop 1 := List.dropLast_subset _ hpl
      have hp2 : p ∈ splitFence text := List.drop_subset 1 _ hp1
      exact splitFenceGo_mem_subset text.length text p hp2 c hcp
    · have hne : splitFence text ≠ [] := splitFenceGo_ne_nil _ _
      exact splitFenceGo_mem_subset text.length text _ (getLastD_mem _ [] hne) c hc
  · exact hc

theorem findIdxC_eq_none (c : Char) (l : List Char) (h : ∀ x ∈ l, ¬(x = c)) :
    findIdxC c l = none := by
  induction l with
  | nil => rfl
  | cons x xs ih =>
    rw [findIdxC, if_neg (h x (List.mem_cons_self x xs))]
    rw [ih (fun y hy => h y (List.mem_cons_of_mem x hy))]
    rfl

/-- C8: The JSON extractor is idempotent: applying it to its own output
returns that output unchanged, for every text input. -/

theorem C8_extract_json_block_idempotent (s : String) :
    _extract_json_block (_extract_json_block s) = _extract_json_block s :=
  congrArg String.mk (extractL_fixed (extractL s.data) (extractL_shape s.data))

/-- C5 (amended): the extractor is total (never throws — it is a function)
and always returns a string that starts with `\x7b` and ends with `\x7d` and
contains no fence; the worst-case fallback `"\x7b\x7d"` is parseable JSON.
It does not guarantee that a non-fallback brace slice parses. -/

theorem C5_extractor_total_shape (s : String) :
    GoodBlock (_extract_json_block s).data ∧
    json_loads "\x7b\x7d" = some (JVal.jobj []) ∧
    _extract_json_block "" = "\x7b\x7d" :=
  ⟨extractL_shape s.data, rfl, by decide⟩

/-- Counterexample to C5 as stated: on input `"a\x7bworld\x7d"` the extractor
returns the slice `"\x7bworld\x7d"`, which `json.loads` rejects, so the
extractor does not always return syntactically-parseable JSON. -/

theorem C5_counterexample :
    _extract_json_block "a\x7bworld\x7d" = "\x7bworld\x7d" ∧
    json_loads "\x7bworld\x7d" = none :=
  ⟨by decide, by rfl⟩

/-- Counterexample to C4 as stated: the input `"```\x7b\"a\":1\x7d"` contains
a fence marker, so per the claim the candidate is the (empty) interior
between the first and last fence and the result the literal `"\x7b\x7d"` —
but the code takes the final split part and returns `"\x7b\"a\":1\x7d"`. -/

theorem C4_counterexample :
    _extract_json_block "```\x7b\"a\":1\x7d" = "\x7b\"a\":1\x7d" ∧
    claimC4Extract "```\x7b\"a\":1\x7d" = "\x7b\x7d" ∧
    ("\x7b\"a\":1\x7d" : String) ≠ "\x7b\x7d" :=
  ⟨by decide, by decide, by decide⟩

/-- C4 (amended): the extractor behaves as claimed with the fence rule
corrected for a single fence occurrence (candidate = the text after the
fence); in particular the claim's two examples hold, and any input without a
`\x7b` yields `"\x7b\x7d"`. -/

theorem C4_extractor_amended (s : String) :
    _extract_json_block s = claimC4AmendedExtract s ∧
    _extract_json_block "blah ```json \x7b\"a\":1\x7d ``` blah" = "\x7b\"a\":1\x7d" ∧
    (∀ t : String, (∀ c ∈ t.data, ¬(c = lbrace)) →
      _extract_json_block t = "\x7b\x7d") := by
  refine ⟨?_, by decide, ?_⟩
  · show (⟨extractL s.data⟩ : String) = ⟨claimC4AmendedExtractL s.data⟩
    congr 1
    have hcand : claimC4AmendedCandidate s.data = extractCandidate s.data := rfl
    unfold extractL claimC4AmendedExtractL
    rw [hcand]
    by_cases hnil : s.data = []
    · rw [if_pos hnil, hnil]
      rfl
    · rw [if_neg hnil]
      cases hf : findIdxC lbrace (extractCandidate s.data) with
      | none => rfl
      | some i =>
        cases hr : rfindC rbrace (extractCandidate s.data) with
        | none => rfl
        | some e =>
          show (if e ≤ i then [lbrace, rbrace]
              else ((extractCandidate s.data).drop i).take (e + 1 - i)) =
            (if i < e then ((extractCandidate s.data).drop i).take (e + 1 - i)
              else [lbrace, rbrace])
          by_cases h : e ≤ i
          · rw [if_pos h, if_neg (Nat.not_lt.mpr h)]
          · rw [if_neg h, if_pos (Nat.lt_of_not_le h)]
  · intro t ht
    show (⟨extractL t.data⟩ : String) = ⟨[lbrace, rbrace]⟩
    congr 1
    unfold extractL
    by_cases hnil : t.data = []
    · rw [if_pos hnil]
    · rw [if_neg hnil]
      have hnone : findIdxC lbrace (extractCandidate t.data) = none :=
        findIdxC_eq_none lbrace _
          (fun x hx => ht x (extractCandidate_subset t.data x hx))
      rw [hnone]

/-- Witness for the no-brace conjunct of the amended C4. -/

theorem C4_extractor_amended_witness :
    (∀ c ∈ ("no braces at all" : String).data, ¬(c = lbrace)) ∧
    _extract_json_block "no braces at all" = "\x7b\x7d" := by
  refine ⟨by decide, ?_⟩
  exact (C4_extractor_amended "x").2.2 "no braces at all" (by decide)

theorem countLookup_dictIncr (m : List (String × Nat)) (r k : String) :
    countLookup (dictIncr m r) k = countLookup m k + (if r = k then 1 else 0) := by
  induction m with
  | nil => by_cases h : r = k <;> simp [dictIncr, countLookup, h]
  | cons kv rest ih =>
    obtain ⟨k2, v⟩ := kv
    by_cases h2 : k2 = r
    · subst h2
      by_cases hk : k2 = k
      · subst hk
        simp [dictIncr, countLookup]
      · have hrk : ¬(k2 = k) := hk
        simp [dictIncr, countLookup, hrk]
    · by_cases hk : k2 = k
      · subst hk
        have hrk : ¬(r = k2) := fun h => h2 h.symm
        simp [dictIncr, countLookup, h2, hrk]
      · simp [dictIncr, countLookup, h2, hk, ih]

theorem regionCountsGo_spec : ∀ (xs : List JVal) (acc : List (String × Nat)),
    (∀ i ∈ xs, (metricsRegionOf i).isSome) →
    ∃ rc, regionCountsGo xs acc = some rc ∧
      ∀ k, countLookup rc k =
        countLookup acc k + xs.countP (fun i => metricsRegionOf i == some k)
  | [], acc, _ => ⟨acc, rfl, fun k => by simp [regionCountsGo]⟩
  | i :: rest, acc, hreg => by
    have hi := hreg i (List.mem_cons_self _ _)
    cases hri : metricsRegionOf i with
    | none => rw [hri] at hi; simp at hi
    | some r =>
      obtain ⟨rc, hrc, hcount⟩ := regionCountsGo_spec rest (dictIncr acc r)
        (fun x hx => hreg x (List.mem_cons_of_mem _ hx))
      refine ⟨rc, ?_, ?_⟩
      · rw [regionCountsGo, hri]
        exact hrc
      · intro k
        rw [hcount k, countLookup_dictIncr, List.countP_cons]
        have hbeq : (metricsRegionOf i == some r) = true := by
          rw [hri]; simp
        by_cases hrk : r = k
        · subst hrk
          simp [hri]
          omega
        · have hne : (metricsRegionOf i == some k) = false := by
            rw [hri]
            simpa using hrk
          simp [hne, hrk]

/-- Counterexample to C7 as stated: the metrics stage puts the unrecognized
region `"Atlantis"` into its own lowercased bucket `"atlantis"`; the bucket
`"unknown"` that the claim demands for it stays at count 0. -/

theorem C7_counterexample :
    metrics_agent_run atlantisTagged none =
      some { tagged_items_count := 1, items_by_region := [("atlantis", 1)],
             risk_issue_count := 0 } ∧
    claimRegionBucket atlantisItem = "unknown" ∧
    countLookup [("atlantis", 1)] (claimRegionBucket atlantisItem) = 0 :=
  ⟨rfl, by decide, by decide⟩

/-- C7 (amended): for every pipeline state whose tagged items — when they are
records with a truthy region value — carry string regions (which covers every
state the tagged-items parser can produce), the metrics stage succeeds and
writes the total item count, the issue count of the risk report (0 when the
report is absent or malformed), and region counts bucketed by
`(item.get("region") or "unknown").lower()`: lowercased (case-insensitive)
buckets, with `"unknown"` only for non-record items and missing or falsy
regions — a present unrecognized region string forms its own bucket. -/

theorem C7_metrics_amended (tagged_items risk_report : Option JVal)
    (xs : List JVal) (hxs : metricsItemsList tagged_items = some xs)
    (hreg : ∀ item ∈ xs, (metricsRegionOf item).isSome) :
    ∃ m, metrics_agent_run tagged_items risk_report = some m ∧
      m.tagged_items_count = xs.length ∧
      (∀ k, countLookup m.items_by_region k =
        xs.countP (fun item => metricsRegionOf item == some k)) ∧
      (∀ item, (∀ fs, item ≠ JVal.jobj fs) → metricsRegionOf item = some "unknown") ∧
      (∀ fs, jLookup fs "region" = none →
        metricsRegionOf (JVal.jobj fs) = some "unknown") ∧
      m.risk_issue_count = metricsIssueCount risk_report ∧
      (risk_report = none → m.risk_issue_count = 0) := by
  obtain ⟨rc, hrc, hcount⟩ := regionCountsGo_spec xs [] hreg
  refine ⟨MetricsSummary.mk xs.length rc (metricsIssueCount risk_report),
    ?_, rfl, ?_, ?_, ?_, rfl, ?_⟩
  · unfold metrics_agent_run
    rw [hxs]
    show (match regionCountsGo xs [] with
      | none => none
      | some rc2 =>
        some (MetricsSummary.mk xs.length rc2 (metricsIssueCount risk_report))) =
      some (MetricsSummary.mk xs.length rc (metricsIssueCount risk_report))
    rw [hrc]
  · intro k
    have := hcount k
    simpa [countLookup] using this
  · intro item hne
    cases item with
    | jobj fs => exact absurd rfl (hne fs)
    | jnull => rfl
    | jbool b => rfl
    | jnum lit => rfl
    | jstr s2 => rfl
    | jarr es => rfl
  · intro fs h0
    show pyLowerJ (if jTruthy ((jLookup fs "region").getD JVal.jnull)
      then (jLookup fs "region").getD JVal.jnull else JVal.jstr "unknown") =
      some "unknown"
    rw [h0]
    rfl
  · intro h
    subst h
    rfl

/-- Witness for the amended C7 at a concrete state. -/

theorem C7_metrics_amended_witness :
    metricsItemsList metricsWitnessTagged = some metricsWitnessItems ∧
    (∀ item ∈ metricsWitnessItems, (metricsRegionOf item).isSome) ∧
    (∃ m, metrics_agent_run metricsWitnessTagged metricsWitnessRisk = some m ∧
      m.tagged_items_count = metricsWitnessItems.length ∧
      (∀ k, countLookup m.items_by_region k =
        metricsWitnessItems.countP (fun item => metricsRegionOf item == some k)) ∧
      (∀ item, (∀ fs, item ≠ JVal.jobj fs) → metricsRegionOf item = some "unknown") ∧
      (∀ fs, jLookup fs "region" = none →
        metricsRegionOf (JVal.jobj fs) = some "unknown") ∧
      m.risk_issue_count = metricsIssueCount metricsWitnessRisk ∧
      (metricsWitnessRisk = none → m.risk_issue_count = 0)) :=
  ⟨rfl, by decide,
    C7_metrics_amended metricsWitnessTagged metricsWitnessRisk metricsWitnessItems
      rfl (by decide)⟩
